import Mathlib

/-!
# Verification of the NodeBB topic lifecycle and privilege engine

Shallow embedding of the topic tools module (`topicTools`: delete/restore,
pin/unpin, pin expiry, pinned-topic ordering), the topic privilege checks
(`privileges/topics.js`), the post aggregation (`topics/posts.js`) and
`User.isInstructor` (`user/index.js`), together with theorems settling the
specification claims.

Modelling conventions:
* `uid`, `tid`, `cid` and timestamps are natural numbers; sorted-set scores
  are integers (JavaScript numbers used only in integral ways here).
* A Redis sorted set is represented by its list of `(member, score)` pairs
  kept in ascending `(score, member)` order, so `getSortedSetRange key 0 -1`
  is `List.map Prod.fst`.  The poster-tally set `tid:<tid>:posters`, of which
  the code only uses membership, scores and cardinality, is represented as a
  plain association list.
* External collaborators (the category ACL oracle
  `privileges.categories.isAdminOrMod`, the user role oracles, `meta.config`)
  are fields of an `Env` record; the clock `Date.now()` is `Env.now`, fixed
  for the duration of one operation.
* Plugin hooks (`plugins.hooks.fire`) are external collaborators; filter
  hooks are modelled as identity passthrough and action hooks as no-ops.
  Event logging (`Topics.events.log`) is likewise external.
* Stateful operations return `St × Except Err α`: mutations performed before
  a throw persist, exactly as in the JavaScript source (no rollback).
-/

namespace NodeBB

/-- A stored topic record (the fields of the `topic:<tid>` hash that the
analyzed code reads or writes, with `db.parseIntFields` coercion applied).
`scheduled` is not stored: it is derived as `timestamp > Date.now()`. -/
structure Topic where
  tid : Nat
  uid : Nat
  cid : Nat
  timestamp : Nat
  lastposttime : Nat
  postcount : Nat
  viewcount : Nat
  upvotes : Nat
  downvotes : Nat
  deleted : Bool
  pinned : Bool
  locked : Bool
  pinExpiry : Option Nat
  deleterUid : Nat
  deriving Repr, DecidableEq

/-- The external oracles and configuration consumed by the engine. -/
structure Env where
  /-- `Date.now()` for the duration of one operation. -/
  now : Nat
  /-- `privileges.categories.isAdminOrMod(cid, uid)`: site administrator or
  moderator of the category (external ACL oracle). -/
  catAdminOrMod : Nat → Nat → Bool
  /-- `User.getAccountTypeByUid(uid)` (external user store). -/
  accounttype : Nat → String
  /-- `user.isModerator(uid, cid)` (external). -/
  isModerator : Nat → Nat → Bool
  /-- `user.isAdministrator(uid)` (external). -/
  isAdministrator : Nat → Bool
  /-- `topics.isOwner(tid, uid)` (external to the analyzed files). -/
  isOwner : Nat → Nat → Bool
  /-- `helpers.isAllowedTo('topics:delete', uid, [cid])` (category ACL). -/
  allowedToDelete : Nat → Nat → Bool
  /-- `meta.config.preventTopicDeleteAfterReplies` (0 when unset/falsy). -/
  preventTopicDeleteAfterReplies : Nat

/-- The shared keyed store: topic hashes and the per-category ordered
indices touched by the topic tools. -/
structure St where
  topics : Nat → Option Topic
  /-- `cid:<cid>:tids` (scored by lastposttime). -/
  catTids : Nat → List (Nat × Int)
  /-- `cid:<cid>:tids:posts` (scored by postcount). -/
  catPosts : Nat → List (Nat × Int)
  /-- `cid:<cid>:tids:votes` (scored by votes). -/
  catVotes : Nat → List (Nat × Int)
  /-- `cid:<cid>:tids:views` (scored by viewcount). -/
  catViews : Nat → List (Nat × Int)
  /-- `cid:<cid>:tids:pinned` (scored by pin time / positional order). -/
  catPinned : Nat → List (Nat × Int)

/-- The domain errors thrown by the analyzed code (`[[error:...]]` strings)
plus JavaScript `TypeError` for the hand-written type assertions. -/
inductive Err where
  | typeError
  | noTopic
  | invalidData
  | cantPinScheduled
  | noPrivileges
  | topicAlreadyDeleted
  | topicAlreadyRestored
  | cantDeleteTopicHasReplies (n : Nat)
  | cantDeleteTopicHasReply
  deriving Repr, DecidableEq

/-- The acting user as passed to `togglePin`: a numeric uid, or the literal
string `'system'` used by the pin-expiry sweep. -/
inductive Actor where
  | user (uid : Nat)
  | system
  deriving Repr, DecidableEq

/-- Point update of a store map. -/
def updateFn (f : Nat → α) (k : Nat) (v : α) : Nat → α :=
  fun x => if x = k then v else f x

/-! ## Sorted-set primitives -/

/-- Remove a member from a sorted set (`sortedSetRemove` /
`sortedSetsRemove` restricted to one key). -/
def zremKey (l : List (Nat × Int)) (m : Nat) : List (Nat × Int) :=
  l.filter (fun e => e.1 != m)

/-- Insert a pair into a score-ordered list, keeping ascending
`(score, member)` order. -/
def insertPair (p : Nat × Int) : List (Nat × Int) → List (Nat × Int)
  | [] => [p]
  | q :: rest =>
    if p.2 < q.2 || (p.2 == q.2 && p.1 ≤ q.1) then p :: q :: rest
    else q :: insertPair p rest

/-- `db.sortedSetAdd(key, score, member)`: upsert one member. -/
def zadd (l : List (Nat × Int)) (score : Int) (m : Nat) : List (Nat × Int) :=
  insertPair (m, score) (zremKey l m)

/-- `db.getSortedSetRange(key, 0, -1)`: all members in score order. -/
def zrange (l : List (Nat × Int)) : List Nat :=
  l.map (·.1)

/-- Insertion sort by ascending `(score, member)`; used to state the
semantics of a bulk upsert. -/
def sortPairs : List (Nat × Int) → List (Nat × Int)
  | [] => []
  | p :: rest => insertPair p (sortPairs rest)

/-- `db.sortedSetAdd(key, scores, members)` (bulk form on one key): upsert
every listed member with its score; untouched members keep their scores. -/
def zaddMulti (l : List (Nat × Int)) (pairs : List (Nat × Int)) : List (Nat × Int) :=
  sortPairs (pairs ++ l.filter (fun e => pairs.all (fun p => p.1 != e.1)))

/-! ## Role checks -/

/-- `User.isInstructor(uid)` (`user/index.js`): for a numeric uid, the
account type equals `'instructor'`. -/
def isInstructor (env : Env) (uid : Nat) : Bool :=
  env.accounttype uid == "instructor"

/-- `privileges.topics.isAdminOrMod(tid, uid)` (`privileges/topics.js`):
`uid <= 0` is rejected, otherwise the category ACL oracle is consulted on
the topic's `cid` (`getTopicField` of a missing topic parses to 0). -/
def privsIsAdminOrMod (env : Env) (st : St) (tid uid : Nat) : Bool :=
  if uid = 0 then false
  else
    match st.topics tid with
    | some t => env.catAdminOrMod t.cid uid
    | none => env.catAdminOrMod 0 uid

/-! ## togglePin / pin / unpin -/

/-- The fields of the result object of `togglePin` that its callers'
shape assertions inspect. -/
structure PinResult where
  tid : Nat
  uid : Nat
  cid : Nat
  pinned : Bool
  deriving Repr, DecidableEq

/-- Derived `votes` field: `upvotes - downvotes` (from `modifyTopic`). -/
def topicVotes (t : Topic) : Int :=
  (t.upvotes : Int) - (t.downvotes : Int)

/-- `togglePin(tid, uid, pin)` from the topic tools module.

The function first asserts `typeof uid === 'number'` and throws a
`TypeError` otherwise; the literal string `'system'` is not a number, so
the `.system` actor fails this assertion before reaching the
`uid !== 'system'` bypass in the privilege guard (which is therefore dead
code).  For a numeric uid, `uid !== 'system'` is always true, leaving the
guard `!isAdminOrMod && !isInstructor`. -/
def togglePin (env : Env) (st : St) (tid : Nat) (actor : Actor) (pin : Bool) :
    St × Except Err PinResult :=
  match actor with
  | .system => (st, .error .typeError)
  | .user uid =>
    match st.topics tid with
    | none => (st, .error .noTopic)
    | some t =>
      if env.now < t.timestamp then (st, .error .cantPinScheduled)
      else if !privsIsAdminOrMod env st tid uid && !isInstructor env uid then
        (st, .error .noPrivileges)
      else
        let t' := if pin then { t with pinned := true }
                  else { t with pinned := false, pinExpiry := none }
        let st1 : St := { st with topics := updateFn st.topics tid (some t') }
        let st2 : St :=
          if pin then
            { st1 with
              catPinned := updateFn st1.catPinned t.cid
                (zadd (st1.catPinned t.cid) (env.now : Int) tid),
              catTids := updateFn st1.catTids t.cid (zremKey (st1.catTids t.cid) tid),
              catPosts := updateFn st1.catPosts t.cid (zremKey (st1.catPosts t.cid) tid),
              catVotes := updateFn st1.catVotes t.cid (zremKey (st1.catVotes t.cid) tid),
              catViews := updateFn st1.catViews t.cid (zremKey (st1.catViews t.cid) tid) }
          else
            { st1 with
              catPinned := updateFn st1.catPinned t.cid (zremKey (st1.catPinned t.cid) tid),
              catTids := updateFn st1.catTids t.cid
                (zadd (st1.catTids t.cid) (t.lastposttime : Int) tid),
              catPosts := updateFn st1.catPosts t.cid
                (zadd (st1.catPosts t.cid) (t.postcount : Int) tid),
              catVotes := updateFn st1.catVotes t.cid
                (zadd (st1.catVotes t.cid) (topicVotes t) tid),
              catViews := updateFn st1.catViews t.cid
                (zadd (st1.catViews t.cid) (t.viewcount : Int) tid) }
        (st2, .ok ⟨tid, t.uid, t.cid, pin⟩)

/-- `topicTools.pin(tid, uid)`: type assertions hold for a numeric uid, the
result-shape assertion holds by construction. -/
def pin (env : Env) (st : St) (tid uid : Nat) : St × Except Err PinResult :=
  togglePin env st tid (.user uid) true

/-- `topicTools.unpin(tid, uid)`. -/
def unpin (env : Env) (st : St) (tid uid : Nat) : St × Except Err PinResult :=
  togglePin env st tid (.user uid) false

/-- `true` iff an `Except` result is a success. -/
def isOkB : Except Err α → Bool
  | .ok _ => true
  | .error _ => false

/-! ## setPinExpiry / checkPinExpiry -/

/-- `topicTools.setPinExpiry(tid, expiry, uid)`: requires a future expiry
and category admin-or-mod (the `cid` field of a missing topic parses to
0), then sets the `pinExpiry` field.  It checks neither the topic's pinned
state nor its scheduled state.  (`setTopicField` on a missing topic hash
would create a stray key; the model leaves the store unchanged in that
irrelevant corner.) -/
def setPinExpiry (env : Env) (st : St) (tid expiry uid : Nat) :
    St × Except Err Unit :=
  if expiry ≤ env.now then (st, .error .invalidData)
  else
    let cid := match st.topics tid with | some t => t.cid | none => 0
    if !env.catAdminOrMod cid uid then (st, .error .noPrivileges)
    else
      match st.topics tid with
      | some t =>
        let st' : St :=
          { st with topics := updateFn st.topics tid
                      (some { t with pinExpiry := some expiry }) }
        (st', .ok ())
      | none => (st, .ok ())

/-- One step of the `checkPinExpiry` sweep.  The expiry values are read
from the pre-sweep store (the source computes them in one batched fetch
before iterating); the `Promise.all` over the per-tid branches is
sequentialized stopping at the first rejection, which is state-faithful
because no branch mutates before that rejection: an expired entry fails
`togglePin`'s uid type assertion before any write (the actor is the string
`'system'`), and a non-expired entry performs no write at all. -/
def sweep (env : Env) : St → List (Nat × Option Nat) → St × Except Err (List (Option Nat))
  | st, [] => (st, .ok [])
  | st, (tid, e?) :: rest =>
    let expired := match e? with
      | some e => e != 0 && e ≤ env.now
      | none => false
    if expired then
      match togglePin env st tid .system false with
      | (st', .ok _) =>
        match sweep env st' rest with
        | (st'', .ok l) => (st'', .ok (none :: l))
        | (st'', .error er) => (st'', .error er)
      | (st', .error er) => (st', .error er)
    else
      match sweep env st rest with
      | (st'', .ok l) => (st'', .ok (some tid :: l))
      | (st'', .error er) => (st'', .error er)

/-- `topicTools.checkPinExpiry(tids)`: batch-reads `pinExpiry` (absent or 0
is falsy and skipped), unpins every expired entry with
`togglePin(tid, 'system', false)`, and returns the still-valid tids
(`tids.filter(Boolean)` also drops a literal tid 0). -/
def checkPinExpiry (env : Env) (st : St) (tids : List Nat) :
    St × Except Err (List Nat) :=
  let expiry := tids.map fun tid => (st.topics tid).bind Topic.pinExpiry
  match sweep env st (tids.zip expiry) with
  | (st', .ok l) => (st', .ok ((l.filterMap id).filter (fun x => x != 0)))
  | (st', .error e) => (st', .error e)

/-! ## Sorted-set lemmas -/

/-- A pair is a member of the list obtained by inserting it. -/
theorem mem_insertPair_self (p : Nat × Int) (l : List (Nat × Int)) :
    p ∈ insertPair p l := by
  induction l with
  | nil => simp [insertPair]
  | cons q rest ih =>
    unfold insertPair
    split
    · exact List.mem_cons_self _ _
    · exact List.mem_cons_of_mem _ ih

/-- The upserted member together with its score belongs to the sorted set
after `zadd`. -/
theorem mem_zadd_self (l : List (Nat × Int)) (s : Int) (m : Nat) :
    (m, s) ∈ zadd l s m :=
  mem_insertPair_self _ _

/-- A removed member is absent from the sorted set after `zremKey`. -/
theorem not_mem_keys_zremKey (l : List (Nat × Int)) (m : Nat) :
    m ∉ (zremKey l m).map (·.1) := by
  intro h
  simp only [zremKey, List.mem_map, List.mem_filter] at h
  obtain ⟨e, ⟨_, hne⟩, heq⟩ := h
  rw [heq] at hne
  simp at hne

/-! ## canDelete / toggleDelete -/

/-- The fields `canDelete` fetches (`getTopicFields(tid, ['uid', 'cid',
'postcount', 'deleterUid'])`); a missing topic parses to all-zero fields. -/
def delFields (st : St) (tid : Nat) : Nat × Nat × Nat × Nat :=
  match st.topics tid with
  | some t => (t.uid, t.cid, t.postcount, t.deleterUid)
  | none => (0, 0, 0, 0)

/-- `privileges.topics.canDelete(tid, uid)` (`privileges/topics.js`):
administrators always may; a non-moderator hitting the configured
`preventTopicDeleteAfterReplies` threshold gets a thrown threshold error
(parameterized with the threshold when it exceeds 1); otherwise the ACL,
ownership (guarded by `deleterUid`) and moderator status decide. -/
def canDelete (env : Env) (st : St) (tid uid : Nat) : Except Err Bool :=
  let f := delFields st tid
  let tuid := f.1
  let cid := f.2.1
  let postcount := f.2.2.1
  let deleterUid := f.2.2.2
  let isModerator := env.isModerator uid cid
  let isAdministrator := env.isAdministrator uid
  let isOwner := env.isOwner tid uid
  let allowedTo := env.allowedToDelete uid cid
  if isAdministrator then .ok true
  else if !isModerator && env.preventTopicDeleteAfterReplies != 0 &&
      (postcount : Int) - 1 ≥ (env.preventTopicDeleteAfterReplies : Int) then
    .error (if 1 < env.preventTopicDeleteAfterReplies then
      .cantDeleteTopicHasReplies env.preventTopicDeleteAfterReplies
    else .cantDeleteTopicHasReply)
  else
    .ok (allowedTo && ((isOwner && (deleterUid == 0 || deleterUid == tuid)) || isModerator))

/-- The fields of `toggleDelete`'s result object that the shape assertions
of `topicTools.delete` / `topicTools.restore` inspect. -/
structure DelResult where
  tid : Nat
  cid : Nat
  uid : Nat
  isDelete : Bool
  deriving Repr, DecidableEq

/-- Modelled from the spec: `Topics.delete(tid, uid)` and
`Topics.restore(tid)` (not among the analyzed source files) apply the
reversible soft-state flag — set/clear `deleted`, recording `deleterUid` on
delete. -/
def applyDeleteFlag (st : St) (tid uid : Nat) (isDelete : Bool) : St :=
  match st.topics tid with
  | some t =>
    { st with topics := updateFn st.topics tid (some
        { t with deleted := isDelete,
                 deleterUid := if isDelete then uid else 0 }) }
  | none => st

/-- `toggleDelete(tid, uid, isDelete)` from the topic tools module: missing
topic, scheduled topic, privilege veto (the `filter:topic.(delete|restore)`
hook is an external collaborator modelled as identity, so
`canDelete = canRestore` is the computed privilege), and the
already-deleted / already-restored state conflicts, in that order; only
then is the flag applied. -/
def toggleDelete (env : Env) (st : St) (tid uid : Nat) (isDelete : Bool) :
    St × Except Err DelResult :=
  match st.topics tid with
  | none => (st, .error .noTopic)
  | some t =>
    if env.now < t.timestamp then (st, .error .invalidData)
    else
      match canDelete env st tid uid with
      | .error e => (st, .error e)
      | .ok canDel =>
        if (!canDel && isDelete) || (!canDel && !isDelete) then
          (st, .error .noPrivileges)
        else if t.deleted && isDelete then (st, .error .topicAlreadyDeleted)
        else if !t.deleted && !isDelete then (st, .error .topicAlreadyRestored)
        else (applyDeleteFlag st tid uid isDelete, .ok ⟨tid, t.cid, uid, isDelete⟩)

/-- `topicTools.delete(tid, uid)`. -/
def deleteTopic (env : Env) (st : St) (tid uid : Nat) : St × Except Err DelResult :=
  toggleDelete env st tid uid true

/-- `topicTools.restore(tid, uid)`. -/
def restoreTopic (env : Env) (st : St) (tid uid : Nat) : St × Except Err DelResult :=
  toggleDelete env st tid uid false

/-! ## Post aggregation (`topics/posts.js`) -/

/-- The post fields `addPostToTopic` / `removePostFromTopic` read. -/
structure PostData where
  pid : Nat
  uid : Nat
  timestamp : Nat
  upvotes : Nat
  downvotes : Nat
  deriving Repr, DecidableEq

/-- The per-topic aggregation state: the topic's counters, the reply
indices `tid:<tid>:posts` and `tid:<tid>:posts:votes`, and the poster
tally set `tid:<tid>:posters`. -/
structure TopicAgg where
  mainPid : Option Nat
  postcount : Int
  instructorcount : Int
  postercount : Nat
  posts : List (Nat × Int)
  postsVotes : List (Nat × Int)
  posters : List (Nat × Int)
  deriving Repr, DecidableEq

/-- `db.sortedSetIncrBy(key, d, member)` on an association list: increment
the member's score, creating it with score `d` when absent. -/
def zincrScore (l : List (Nat × Int)) (d : Int) (m : Nat) : List (Nat × Int) :=
  if l.any (fun e => e.1 == m) then
    l.map (fun e => if e.1 == m then (e.1, e.2 + d) else e)
  else l ++ [(m, d)]

/-- `db.sortedSetsRemoveRangeByScore([key], '-inf', 0)`: drop every member
whose score is at most 0. -/
def zremScoreLe0 (l : List (Nat × Int)) : List (Nat × Int) :=
  l.filter (fun e => !(e.2 ≤ 0))

/-- `parseInt(postData.upvotes) - parseInt(postData.downvotes)`. -/
def jsVotes (p : PostData) : Int := (p.upvotes : Int) - (p.downvotes : Int)

/-- `Topics.addPostToTopic(tid, postData)`: the first post becomes
`mainPid` (field write only, no index entry), later posts enter the reply
and vote indices; always increments `postcount` (root post included);
increments `instructorcount` iff the author currently holds the instructor
role (`await user.isInstructor(...)`); increments the author's poster
tally and recomputes `postercount` as the tally set's cardinality. -/
def addPostToTopic (env : Env) (t : TopicAgg) (p : PostData) : TopicAgg :=
  let t :=
    if t.mainPid.getD 0 == 0 then { t with mainPid := some p.pid }
    else
      { t with posts := zadd t.posts (p.timestamp : Int) p.pid,
               postsVotes := zadd t.postsVotes (jsVotes p) p.pid }
  let t := { t with postcount := t.postcount + 1 }
  let t := if isInstructor env p.uid then
      { t with instructorcount := t.instructorcount + 1 }
    else t
  let posters := zincrScore t.posters 1 p.uid
  { t with posters := posters, postercount := posters.length }

/-- In `Topics.removePostFromTopic` the role guard is written
`if (user.isInstructor(postData.uid))` without `await`: the condition is
the Promise object itself, which is always truthy, so the decrement branch
is always taken regardless of the author's role. -/
def isInstructorPromiseTruthy : Bool := true

/-- `Topics.removePostFromTopic(tid, postData)`: removes the post from the
reply and vote indices, decrements `postcount`, decrements
`instructorcount` (unconditionally — see `isInstructorPromiseTruthy`),
decrements the author's poster tally, prunes tallies at or below 0 and
recomputes `postercount` as the pruned tally set's cardinality. -/
def removePostFromTopic (_env : Env) (t : TopicAgg) (p : PostData) : TopicAgg :=
  let t := { t with posts := zremKey t.posts p.pid,
                    postsVotes := zremKey t.postsVotes p.pid }
  let t := { t with postcount := t.postcount - 1 }
  let t := if isInstructorPromiseTruthy then
      { t with instructorcount := t.instructorcount - 1 }
    else t
  let posters := zremScoreLe0 (zincrScore t.posters (-1) p.uid)
  { t with posters := posters, postercount := posters.length }

/-- The aggregation state of a topic before its first post arrives. -/
def aggInit : TopicAgg :=
  { mainPid := none, postcount := 0, instructorcount := 0, postercount := 0,
    posts := [], postsVotes := [], posters := [] }

/-- One call of the aggregation interface. -/
inductive AggOp where
  | add (p : PostData)
  | remove (p : PostData)
  deriving Repr, DecidableEq

/-- Dispatch one aggregation call. -/
def applyAggOp (env : Env) (t : TopicAgg) : AggOp → TopicAgg
  | .add p => addPostToTopic env t p
  | .remove p => removePostFromTopic env t p

/-- Run a sequence of aggregation calls. -/
def runAgg (env : Env) (t : TopicAgg) : List AggOp → TopicAgg
  | [] => t
  | op :: rest => runAgg env (applyAggOp env t op) rest

/-- Ghost state alongside an operation sequence: the multiset of
currently-attached posts (root post included). -/
def ghostPosts : List PostData → List AggOp → List PostData
  | s, [] => s
  | s, .add p :: rest => ghostPosts (p :: s) rest
  | s, .remove p :: rest => ghostPosts (s.erase p) rest

/-- Well-formed call sequences: every added pid is fresh among the
currently-attached posts and every removed post is currently attached. -/
def wfAgg : List PostData → List AggOp → Bool
  | _, [] => true
  | s, .add p :: rest => s.all (fun q => q.pid != p.pid) && wfAgg (p :: s) rest
  | s, .remove p :: rest => s.contains p && wfAgg (s.erase p) rest

/-- Number of `add` calls in a sequence. -/
def countAdds (ops : List AggOp) : Nat :=
  ops.countP (fun op => match op with | .add _ => true | .remove _ => false)

/-- Number of `remove` calls in a sequence. -/
def countRemoves (ops : List AggOp) : Nat :=
  ops.countP (fun op => match op with | .add _ => false | .remove _ => true)

/-- Number of currently-attached posts authored by `u`. -/
def tallyOf (s : List PostData) (u : Nat) : Nat :=
  s.countP (fun q => q.uid == u)

/-- Representation invariant linking the poster-tally set to the attached
posts: keys are distinct, every entry's score is positive and equals its
author's attached-post count, and every author with an attached post has
an entry. -/
def PostersInv (s : List PostData) (l : List (Nat × Int)) : Prop :=
  (l.map (·.1)).Nodup ∧
  (∀ e ∈ l, 0 < e.2 ∧ e.2 = (tallyOf s e.1 : Int)) ∧
  (∀ u : Nat, 0 < tallyOf s u → u ∈ l.map (·.1))

/-! ## orderPinnedTopics -/

/-- JavaScript `Array.prototype.splice(i, 0, a)`: insert at position `i`,
clamped to the array length. -/
def listInsertAt (l : List α) (i : Nat) (a : α) : List α :=
  l.take i ++ a :: l.drop i

/-- The in-place reorder from the source:
`pinnedTids.splice(Math.max(0, newOrder), 0, pinnedTids.splice(currentIndex, 1)[0])`
with `newOrder = pinnedTids.length - order - 1` computed on the original
length, guarded by `pinnedTids.length > 1`; the `min` mirrors splice's
clamping of the start index to the (shortened) array length. -/
def jsReorder (l : List Nat) (tid : Nat) (order : Int) : List Nat :=
  let currentIndex := l.indexOf tid
  let newOrder : Int := (l.length : Int) - order - 1
  if 1 < l.length then
    let elem := l.getD currentIndex 0
    let removed := l.eraseIdx currentIndex
    listInsertAt removed (min (max 0 newOrder).toNat removed.length) elem
  else l

/-- Pair each member of a list with its positional index starting at `i`
(`pinnedTids.map((tid, index) => index)` passed to `sortedSetAdd`). -/
def posScores : List Nat → Int → List (Nat × Int)
  | [], _ => []
  | m :: rest, i => (m, i) :: posScores rest (i + 1)

/-- `topicTools.orderPinnedTopics(uid, {tid, order})`: validation
(`getTopicField` of a missing topic yields a falsy cid; falsy tid or
negative order also reject), the category admin-or-mod guard, the silent
return when `tid` is not in the pinned list, and otherwise the splice
reorder followed by the positional-score rewrite of the whole list. -/
def orderPinnedTopics (env : Env) (st : St) (uid tid : Nat) (order : Int) :
    St × Except Err Unit :=
  match st.topics tid with
  | none => (st, .error .invalidData)
  | some t =>
    if t.cid = 0 ∨ tid = 0 ∨ order < 0 then (st, .error .invalidData)
    else if !env.catAdminOrMod t.cid uid then (st, .error .noPrivileges)
    else
      let pinnedTids := zrange (st.catPinned t.cid)
      if tid ∈ pinnedTids then
        let newList := jsReorder pinnedTids tid order
        let st' : St :=
          { st with catPinned := updateFn st.catPinned t.cid
                      (zaddMulti (st.catPinned t.cid) (posScores newList 0)) }
        (st', .ok ())
      else (st, .ok ())

/-- The claim's description of the reorder: remove `tid` from its current
position and reinsert it at index `max 0 (length - order - 1)` of the
list, `length` being the pinned list's original length. -/
def claimReorder (l : List Nat) (tid : Nat) (order : Int) : List Nat :=
  listInsertAt (l.erase tid) (max 0 ((l.length : Int) - order - 1)).toNat tid

/-- At the index of a member, `getD` returns the member and `eraseIdx`
erases its first occurrence. -/
theorem indexOf_getD_eraseIdx (l : List Nat) (a : Nat) (h : a ∈ l) :
    l.getD (l.indexOf a) 0 = a ∧ l.eraseIdx (l.indexOf a) = l.erase a := by
  induction l with
  | nil => cases h
  | cons x rest ih =>
    by_cases hx : x = a
    · subst hx
      rw [List.indexOf_cons_self]
      constructor
      · rfl
      · rw [List.eraseIdx_cons_zero, List.erase_cons_head]
    · have hmem : a ∈ rest := by
        rcases List.mem_cons.mp h with h1 | h1
        · exact absurd h1.symm hx
        · exact h1
      obtain ⟨ih1, ih2⟩ := ih hmem
      rw [List.indexOf_cons_ne _ hx]
      constructor
      · rw [Nat.succ_eq_add_one, List.getD_cons_succ]
        exact ih1
      · rw [Nat.succ_eq_add_one, List.eraseIdx_cons_succ, ih2,
          List.erase_cons_tail (by simpa using hx)]

/-- For a member `tid` of `l` and `order ≥ 0`, the splice-based reorder of
the source computes exactly the claim's remove-and-reinsert description
(the splice clamp never binds because `max 0 (length - order - 1)` is at
most `length - 1`). -/
theorem jsReorder_eq_claimReorder (l : List Nat) (tid : Nat) (order : Int)
    (h : tid ∈ l) (ho : 0 ≤ order) :
    jsReorder l tid order = claimReorder l tid order := by
  obtain ⟨hget, hidx⟩ := indexOf_getD_eraseIdx l tid h
  unfold jsReorder claimReorder
  by_cases hlen : 1 < l.length
  · rw [if_pos hlen, hget, hidx]
    have hlenerase : (l.erase tid).length = l.length - 1 := by
      rw [← hidx, List.length_eraseIdx]
      rw [if_pos (List.indexOf_lt_length.mpr h)]
    have hle : (max 0 ((l.length : Int) - order - 1)).toNat ≤ (l.erase tid).length := by
      rw [hlenerase]
      omega
    show listInsertAt (l.erase tid)
        (min (max 0 ((l.length : Int) - order - 1)).toNat (l.erase tid).length) tid
      = listInsertAt (l.erase tid) (max 0 ((l.length : Int) - order - 1)).toNat tid
    rw [min_eq_left hle]
  · rw [if_neg hlen]
    have h1 : 0 < l.length := List.length_pos_of_mem h
    have h2 : l.length = 1 := by omega
    obtain ⟨x, hx⟩ := List.length_eq_one.mp h2
    subst hx
    have hxa : tid = x := by simpa using h
    subst hxa
    rw [List.erase_cons_head]
    unfold listInsertAt
    simp

/-- Membership in a splice insertion. -/
theorem mem_listInsertAt (l : List α) (i : Nat) (a x : α) :
    x ∈ listInsertAt l i a ↔ x = a ∨ x ∈ l := by
  unfold listInsertAt
  constructor
  · intro hx
    rcases List.mem_append.mp hx with h1 | h1
    · exact Or.inr (List.mem_of_mem_take h1)
    · rcases List.mem_cons.mp h1 with h2 | h2
      · exact Or.inl h2
      · exact Or.inr (List.mem_of_mem_drop h2)
  · intro hx
    rcases hx with rfl | h1
    · exact List.mem_append.mpr (Or.inr (List.mem_cons_self _ _))
    · conv at h1 => rw [← List.take_append_drop i l]
      rcases List.mem_append.mp h1 with h2 | h2
      · exact List.mem_append.mpr (Or.inl h2)
      · exact List.mem_append.mpr (Or.inr (List.mem_cons_of_mem _ h2))

/-- The keys of the positional-score pairing are the list itself. -/
theorem posScores_keys (l : List Nat) : ∀ i : Int, (posScores l i).map (·.1) = l := by
  induction l with
  | nil => intro i; rfl
  | cons m rest ih =>
    intro i
    rw [posScores, List.map_cons, ih (i + 1)]

/-- Every entry of `posScores l i` has score at least `i`. -/
theorem posScores_lb (l : List Nat) : ∀ (i : Int), ∀ e ∈ posScores l i, i ≤ e.2 := by
  induction l with
  | nil =>
    intro i e he
    simp [posScores] at he
  | cons m rest ih =>
    intro i e he
    rw [posScores] at he
    rcases List.mem_cons.mp he with rfl | hmem
    · simp
    · have := ih (i + 1) e hmem
      omega

/-- Positional scores are strictly ascending. -/
theorem posScores_strictAsc (l : List Nat) : ∀ (i : Int),
    List.Chain' (fun a b : Nat × Int => a.2 < b.2) (posScores l i) := by
  induction l with
  | nil =>
    intro i
    simp [posScores]
  | cons m rest ih =>
    intro i
    rw [posScores]
    refine List.chain'_cons'.mpr ⟨?_, ih (i + 1)⟩
    intro q hq
    have hmem : q ∈ posScores rest (i + 1) := List.mem_of_mem_head? hq
    have := posScores_lb rest (i + 1) q hmem
    simp only
    omega

/-- Insertion sort leaves a strictly score-ascending list unchanged. -/
theorem sortPairs_of_strictAsc : ∀ l : List (Nat × Int),
    List.Chain' (fun a b : Nat × Int => a.2 < b.2) l → sortPairs l = l := by
  intro l
  induction l with
  | nil => intro _; rfl
  | cons p rest ih =>
    intro h
    rw [sortPairs, ih h.tail]
    cases rest with
    | nil => rfl
    | cons q rest2 =>
      have hpq : p.2 < q.2 := (List.chain'_cons.mp h).1
      unfold insertPair
      rw [if_pos]
      simp [hpq]

/-- When every key of the old sorted set occurs among the upserted
members, the bulk upsert replaces the set wholesale. -/
theorem zaddMulti_covers (l pairs : List (Nat × Int))
    (h : ∀ e ∈ l, ∃ q ∈ pairs, q.1 = e.1) :
    zaddMulti l pairs = sortPairs pairs := by
  unfold zaddMulti
  have hnil : l.filter (fun e => pairs.all (fun p => p.1 != e.1)) = [] := by
    rw [List.filter_eq_nil_iff]
    intro e he
    obtain ⟨q, hq, he2⟩ := h e he
    simp only [List.all_eq_true, bne_iff_ne, ne_eq, not_forall]
    exact ⟨q, hq, by simp [he2]⟩
  rw [hnil, List.append_nil]

/-! ## Aggregation lemmas -/

/-- `addPostToTopic` always increments `postcount` by one. -/
theorem addPost_postcount (env : Env) (t : TopicAgg) (p : PostData) :
    (addPostToTopic env t p).postcount = t.postcount + 1 := by
  unfold addPostToTopic
  by_cases h1 : t.mainPid.getD 0 == 0 <;> by_cases h2 : isInstructor env p.uid <;>
    simp [h1, h2]

/-- `addPostToTopic` bumps the author's poster tally by one. -/
theorem addPost_posters (env : Env) (t : TopicAgg) (p : PostData) :
    (addPostToTopic env t p).posters = zincrScore t.posters 1 p.uid := by
  unfold addPostToTopic
  by_cases h1 : t.mainPid.getD 0 == 0 <;> by_cases h2 : isInstructor env p.uid <;>
    simp [h1, h2]

/-- `addPostToTopic` recomputes `postercount` as the tally cardinality. -/
theorem addPost_postercount (env : Env) (t : TopicAgg) (p : PostData) :
    (addPostToTopic env t p).postercount = (zincrScore t.posters 1 p.uid).length := by
  unfold addPostToTopic
  by_cases h1 : t.mainPid.getD 0 == 0 <;> by_cases h2 : isInstructor env p.uid <;>
    simp [h1, h2]

/-- `removePostFromTopic` always decrements `postcount` by one. -/
theorem removePost_postcount (env : Env) (t : TopicAgg) (p : PostData) :
    (removePostFromTopic env t p).postcount = t.postcount - 1 := by
  simp [removePostFromTopic, isInstructorPromiseTruthy]

/-- `removePostFromTopic` decrements the author's tally and prunes. -/
theorem removePost_posters (env : Env) (t : TopicAgg) (p : PostData) :
    (removePostFromTopic env t p).posters
      = zremScoreLe0 (zincrScore t.posters (-1) p.uid) := by
  simp [removePostFromTopic, isInstructorPromiseTruthy]

/-- `removePostFromTopic` recomputes `postercount` as the pruned tally
cardinality. -/
theorem removePost_postercount (env : Env) (t : TopicAgg) (p : PostData) :
    (removePostFromTopic env t p).postercount
      = (zremScoreLe0 (zincrScore t.posters (-1) p.uid)).length := by
  simp [removePostFromTopic, isInstructorPromiseTruthy]

/-- Tally after attaching a post. -/
theorem tallyOf_cons (s : List PostData) (p : PostData) (u : Nat) :
    tallyOf (p :: s) u = tallyOf s u + (if p.uid == u then 1 else 0) := by
  simp [tallyOf, List.countP_cons]

/-- Tally before and after detaching an attached post. -/
theorem tallyOf_erase (s : List PostData) (p : PostData) (hp : p ∈ s) (u : Nat) :
    tallyOf s u = tallyOf (s.erase p) u + (if p.uid == u then 1 else 0) := by
  obtain ⟨l₁, l₂, _, rfl, herase⟩ := List.exists_erase_eq hp
  rw [herase]
  simp only [tallyOf, List.countP_append, List.countP_cons]
  ring

/-- Attaching a post preserves the poster-tally invariant. -/
theorem postersInv_add (s : List PostData) (l : List (Nat × Int)) (p : PostData)
    (h : PostersInv s l) : PostersInv (p :: s) (zincrScore l 1 p.uid) := by
  obtain ⟨hnd, hsc, hcov⟩ := h
  unfold zincrScore
  by_cases hmem : l.any (fun e => e.1 == p.uid)
  · rw [if_pos hmem]
    have hkeys : (l.map (fun e => if e.1 == p.uid then (e.1, e.2 + 1) else e)).map (·.1)
        = l.map (·.1) := by
      rw [List.map_map]
      apply List.map_congr_left
      intro e _
      by_cases he : (e.1 == p.uid) = true <;> simp [Function.comp, he]
    refine ⟨?_, ?_, ?_⟩
    · rw [hkeys]; exact hnd
    · intro e he
      obtain ⟨a, ha, hae⟩ := List.mem_map.mp he
      obtain ⟨hapos, hasc⟩ := hsc a ha
      by_cases hap : a.1 == p.uid
      · rw [if_pos hap] at hae
        have haeq : a.1 = p.uid := by simpa using hap
        rw [haeq] at hasc
        subst hae
        refine ⟨by omega, ?_⟩
        show a.2 + 1 = ((tallyOf (p :: s) a.1 : Nat) : Int)
        rw [haeq, tallyOf_cons]
        simp only [beq_self_eq_true, if_true]
        push_cast
        omega
      · rw [if_neg hap] at hae
        subst hae
        have hne2 : p.uid ≠ a.1 := by
          intro hcon
          exact hap (by simp [hcon])
        refine ⟨hapos, ?_⟩
        show a.2 = ((tallyOf (p :: s) a.1 : Nat) : Int)
        rw [tallyOf_cons]
        simp [hne2, hasc]
    · intro u hu
      rw [hkeys]
      rw [tallyOf_cons] at hu
      by_cases hpu : p.uid == u
      · have : p.uid = u := by simpa using hpu
        subst this
        obtain ⟨a, ha, hap⟩ := List.any_eq_true.mp hmem
        exact List.mem_map.mpr ⟨a, ha, by simpa using hap⟩
      · rw [if_neg hpu] at hu
        exact hcov u (by omega)
  · rw [if_neg hmem]
    have hne : ∀ a ∈ l, a.1 ≠ p.uid := by
      intro a ha hcon
      exact hmem (List.any_eq_true.mpr ⟨a, ha, by simp [hcon]⟩)
    have hout : p.uid ∉ l.map (·.1) := by
      intro hcon
      obtain ⟨a, ha, hae⟩ := List.mem_map.mp hcon
      exact hne a ha hae
    have htz : tallyOf s p.uid = 0 := by
      by_contra hcon
      exact hout (hcov p.uid (Nat.pos_of_ne_zero hcon))
    refine ⟨?_, ?_, ?_⟩
    · rw [List.map_append]
      simp only [List.map_cons, List.map_nil]
      exact List.Nodup.append hnd (List.nodup_singleton _)
        (by simpa [List.disjoint_singleton] using hout)
    · intro e he
      rcases List.mem_append.mp he with hel | her
      · obtain ⟨hapos, hasc⟩ := hsc e hel
        have hne2 : p.uid ≠ e.1 := fun hcon => (hne e hel) hcon.symm
        refine ⟨hapos, ?_⟩
        rw [tallyOf_cons]
        simp [hne2, hasc]
      · have he1 : e = (p.uid, 1) := by simpa using her
        subst he1
        refine ⟨by omega, ?_⟩
        show (1 : Int) = ((tallyOf (p :: s) p.uid : Nat) : Int)
        rw [tallyOf_cons]
        simp [htz]
    · intro u hu
      rw [List.map_append]
      by_cases hpu : p.uid == u
      · have : p.uid = u := by simpa using hpu
        subst this
        simp
      · rw [tallyOf_cons, if_neg hpu] at hu
        exact List.mem_append_left _ (hcov u (by omega))

/-- The keys of a filtered association list stay duplicate-free. -/
theorem keys_filter_nodup (l : List (Nat × Int)) (q : Nat × Int → Bool)
    (h : (l.map (·.1)).Nodup) : ((l.filter q).map (·.1)).Nodup :=
  List.Nodup.sublist (List.Sublist.map _ (List.filter_sublist l)) h

/-- Detaching an attached post preserves the poster-tally invariant. -/
theorem postersInv_remove (s : List PostData) (l : List (Nat × Int)) (p : PostData)
    (h : PostersInv s l) (hp : p ∈ s) :
    PostersInv (s.erase p) (zremScoreLe0 (zincrScore l (-1) p.uid)) := by
  obtain ⟨hnd, hsc, hcov⟩ := h
  have hpt : 0 < tallyOf s p.uid := List.countP_pos_iff.mpr ⟨p, hp, by simp⟩
  have hkey : p.uid ∈ l.map (·.1) := hcov _ hpt
  have hany : l.any (fun e => e.1 == p.uid) = true := by
    obtain ⟨a, ha, hae⟩ := List.mem_map.mp hkey
    exact List.any_eq_true.mpr ⟨a, ha, by simp [hae]⟩
  unfold zincrScore
  rw [if_pos hany]
  set l1 := l.map (fun e => if e.1 == p.uid then (e.1, e.2 + (-1)) else e) with hl1
  have hkeys : l1.map (·.1) = l.map (·.1) := by
    rw [hl1, List.map_map]
    apply List.map_congr_left
    intro e _
    by_cases he : (e.1 == p.uid) = true <;> simp [Function.comp, he]
  have hsc1 : ∀ e ∈ l1, e.2 = (tallyOf (s.erase p) e.1 : Int) := by
    intro e he
    rw [hl1] at he
    obtain ⟨a, ha, hae⟩ := List.mem_map.mp he
    obtain ⟨hapos, hasc⟩ := hsc a ha
    by_cases hap : (a.1 == p.uid) = true
    · rw [if_pos hap] at hae
      have haeq : a.1 = p.uid := by simpa using hap
      subst hae
      have h2 := tallyOf_erase s p hp a.1
      rw [if_pos (by simp [haeq])] at h2
      show a.2 + (-1) = ((tallyOf (s.erase p) a.1 : Nat) : Int)
      omega
    · rw [if_neg hap] at hae
      subst hae
      have h2 := tallyOf_erase s p hp a.1
      rw [if_neg ?_] at h2
      · show a.2 = ((tallyOf (s.erase p) a.1 : Nat) : Int)
        omega
      · simp only [beq_iff_eq]
        intro hcon
        exact hap (by simp [hcon])
  refine ⟨?_, ?_, ?_⟩
  · exact keys_filter_nodup l1 (fun e => !(e.2 ≤ 0)) (hkeys ▸ hnd)
  · intro e he
    rw [zremScoreLe0, List.mem_filter] at he
    obtain ⟨he1, he2⟩ := he
    have hpos : 0 < e.2 := by
      simp at he2
      omega
    exact ⟨hpos, hsc1 e he1⟩
  · intro u hu
    by_cases hpu : p.uid = u
    · subst hpu
      obtain ⟨a, ha, haeq⟩ := List.mem_map.mp hkey
      have h2 := tallyOf_erase s p hp p.uid
      rw [if_pos (by simp)] at h2
      obtain ⟨hapos, hasc⟩ := hsc a ha
      rw [haeq] at hasc
      have hmem1 : (a.1, a.2 + (-1)) ∈ l1 := by
        rw [hl1]
        exact List.mem_map.mpr ⟨a, ha, by rw [if_pos (by simp [haeq])]⟩
      have hkeep : (a.1, a.2 + (-1)) ∈ zremScoreLe0 l1 := by
        rw [zremScoreLe0, List.mem_filter]
        refine ⟨hmem1, ?_⟩
        simp
        omega
      exact List.mem_map.mpr ⟨(a.1, a.2 + (-1)), hkeep, haeq⟩
    · have h2 := tallyOf_erase s p hp u
      rw [if_neg (by simp [hpu])] at h2
      have hu' : 0 < tallyOf s u := by omega
      obtain ⟨a, ha, haeq⟩ := List.mem_map.mp (hcov u hu')
      obtain ⟨hapos, hasc⟩ := hsc a ha
      have hane : ¬ (a.1 == p.uid) = true := by
        simp [haeq]
        exact fun hcon => hpu hcon.symm
      have hmem1 : a ∈ l1 := by
        rw [hl1]
        refine List.mem_map.mpr ⟨a, ha, ?_⟩
        rw [if_neg hane]
      have hkeep : a ∈ zremScoreLe0 l1 := by
        rw [zremScoreLe0, List.mem_filter]
        refine ⟨hmem1, ?_⟩
        simp
        omega
      exact List.mem_map.mpr ⟨a, hkeep, haeq⟩

/-- Under the invariant, the tally set's cardinality is the number of
distinct authors with at least one attached post. -/
theorem postersInv_length (s : List PostData) (l : List (Nat × Int))
    (h : PostersInv s l) : l.length = ((s.map (·.uid)).dedup).length := by
  obtain ⟨hnd, hsc, hcov⟩ := h
  have hkeymem : ∀ u : Nat, u ∈ l.map (·.1) ↔ u ∈ (s.map (·.uid)).dedup := by
    intro u
    rw [List.mem_dedup]
    constructor
    · intro hu
      obtain ⟨e, he, heq⟩ := List.mem_map.mp hu
      obtain ⟨hpos, hsce⟩ := hsc e he
      have htp : 0 < tallyOf s e.1 := by omega
      obtain ⟨q, hq, hq2⟩ := List.countP_pos_iff.mp htp
      refine List.mem_map.mpr ⟨q, hq, ?_⟩
      rw [← heq]
      simpa using hq2
    · intro hu
      obtain ⟨q, hq, hequ⟩ := List.mem_map.mp hu
      subst hequ
      exact hcov q.uid (List.countP_pos_iff.mpr ⟨q, hq, by simp⟩)
  have hnd2 : ((s.map (·.uid)).dedup).Nodup := List.nodup_dedup _
  have hfin : (l.map (·.1)).toFinset = ((s.map (·.uid)).dedup).toFinset := by
    ext u
    simp only [List.mem_toFinset]
    exact hkeymem u
  have h1 : (l.map (·.1)).toFinset.card = (l.map (·.1)).length :=
    List.toFinset_card_of_nodup hnd
  have h2 : ((s.map (·.uid)).dedup).toFinset.card = ((s.map (·.uid)).dedup).length :=
    List.toFinset_card_of_nodup hnd2
  calc l.length = (l.map (·.1)).length := by simp
    _ = (l.map (·.1)).toFinset.card := h1.symm
    _ = ((s.map (·.uid)).dedup).toFinset.card := by rw [hfin]
    _ = ((s.map (·.uid)).dedup).length := h2

/-- Invariant carried through a run: `postcount` equals the number of
attached posts, the poster tally set satisfies `PostersInv`, and
`postercount` is its cardinality. -/
def AggInv (s : List PostData) (t : TopicAgg) : Prop :=
  t.postcount = (s.length : Int) ∧ PostersInv s t.posters ∧
  t.postercount = t.posters.length

/-- One `addPostToTopic` call preserves the aggregation invariant. -/
theorem aggInv_add (env : Env) (s : List PostData) (t : TopicAgg) (p : PostData)
    (h : AggInv s t) : AggInv (p :: s) (addPostToTopic env t p) := by
  obtain ⟨hpc, hpi, hcnt⟩ := h
  refine ⟨?_, ?_, ?_⟩
  · rw [addPost_postcount, hpc, List.length_cons]
    push_cast
    ring
  · rw [addPost_posters]
    exact postersInv_add s t.posters p hpi
  · rw [addPost_postercount, addPost_posters]

/-- One well-formed `removePostFromTopic` call preserves the aggregation
invariant. -/
theorem aggInv_remove (env : Env) (s : List PostData) (t : TopicAgg) (p : PostData)
    (h : AggInv s t) (hp : p ∈ s) :
    AggInv (s.erase p) (removePostFromTopic env t p) := by
  obtain ⟨hpc, hpi, hcnt⟩ := h
  refine ⟨?_, ?_, ?_⟩
  · rw [removePost_postcount, hpc]
    have h1 : (s.erase p).length = s.length - 1 := List.length_erase_of_mem hp
    have h2 : 0 < s.length := List.length_pos_of_mem hp
    omega
  · rw [removePost_posters]
    exact postersInv_remove s t.posters p hpi hp
  · rw [removePost_postercount, removePost_posters]

/-- The aggregation invariant is preserved along every well-formed call
sequence. -/
theorem runAgg_inv (env : Env) (ops : List AggOp) :
    ∀ (s : List PostData) (t : TopicAgg), wfAgg s ops = true → AggInv s t →
      AggInv (ghostPosts s ops) (runAgg env t ops) := by
  induction ops with
  | nil =>
    intro s t _ h
    simpa [ghostPosts, runAgg] using h
  | cons op rest ih =>
    intro s t hwf hinv
    cases op with
    | add p =>
      simp only [wfAgg, Bool.and_eq_true] at hwf
      exact ih (p :: s) _ hwf.2 (aggInv_add env s t p hinv)
    | remove p =>
      simp only [wfAgg, Bool.and_eq_true] at hwf
      have hp : p ∈ s := by simpa using hwf.1
      exact ih (s.erase p) _ hwf.2 (aggInv_remove env s t p hinv hp)

/-- The number of attached posts after a well-formed sequence is the
number of adds minus the number of removes. -/
theorem ghostPosts_length (ops : List AggOp) :
    ∀ s : List PostData, wfAgg s ops = true →
      ((ghostPosts s ops).length : Int)
        = (s.length : Int) + (countAdds ops : Int) - (countRemoves ops : Int) := by
  induction ops with
  | nil =>
    intro s _
    simp [ghostPosts, countAdds, countRemoves]
  | cons op rest ih =>
    intro s hwf
    cases op with
    | add p =>
      simp only [wfAgg, Bool.and_eq_true] at hwf
      have hrec := ih (p :: s) hwf.2
      have hca : countAdds (.add p :: rest) = countAdds rest + 1 := by
        simp [countAdds, List.countP_cons]
      have hcr : countRemoves (.add p :: rest) = countRemoves rest := by
        simp [countRemoves, List.countP_cons]
      rw [show ghostPosts s (.add p :: rest) = ghostPosts (p :: s) rest from rfl, hca, hcr]
      rw [List.length_cons] at hrec
      push_cast at hrec ⊢
      omega
    | remove p =>
      simp only [wfAgg, Bool.and_eq_true] at hwf
      have hp : p ∈ s := by simpa using hwf.1
      have hrec := ih (s.erase p) hwf.2
      have h1 : (s.erase p).length = s.length - 1 := List.length_erase_of_mem hp
      have h2 : 0 < s.length := List.length_pos_of_mem hp
      have hca : countAdds (.remove p :: rest) = countAdds rest := by
        simp [countAdds, List.countP_cons]
      have hcr : countRemoves (.remove p :: rest) = countRemoves rest + 1 := by
        simp [countRemoves, List.countP_cons]
      rw [show ghostPosts s (.remove p :: rest) = ghostPosts (s.erase p) rest from rfl, hca, hcr]
      push_cast at hrec ⊢
      omega

/-! ## Concrete sample data for witnesses -/

/-- A plain existing topic (tid 1, category 2, not scheduled, not deleted,
not pinned). -/
def wTopic : Topic :=
  { tid := 1, uid := 3, cid := 2, timestamp := 50, lastposttime := 60,
    postcount := 4, viewcount := 7, upvotes := 5, downvotes := 2,
    deleted := false, pinned := false, locked := false,
    pinExpiry := none, deleterUid := 0 }

/-- A scheduled topic (tid 2): its timestamp 200 lies after `wEnv.now`. -/
def wTopicSched : Topic :=
  { tid := 2, uid := 3, cid := 2, timestamp := 200, lastposttime := 200,
    postcount := 1, viewcount := 0, upvotes := 0, downvotes := 0,
    deleted := false, pinned := false, locked := false,
    pinExpiry := none, deleterUid := 0 }

/-- An already-deleted topic (tid 3), deleted by its owner uid 3. -/
def wTopicDel : Topic :=
  { tid := 3, uid := 3, cid := 2, timestamp := 40, lastposttime := 45,
    postcount := 2, viewcount := 1, upvotes := 0, downvotes := 0,
    deleted := true, pinned := false, locked := false,
    pinExpiry := none, deleterUid := 3 }

/-- A pinned topic (tid 4) whose pin expiry 99 lies before `wEnv.now`. -/
def wTopicPinned : Topic :=
  { tid := 4, uid := 3, cid := 2, timestamp := 30, lastposttime := 35,
    postcount := 3, viewcount := 9, upvotes := 2, downvotes := 1,
    deleted := false, pinned := true, locked := false,
    pinExpiry := some 99, deleterUid := 0 }

/-- A sample store holding `wTopic`, `wTopicSched`, `wTopicDel` and
`wTopicPinned`. -/
def wSt : St :=
  { topics := fun x => if x = 1 then some wTopic else
      if x = 2 then some wTopicSched else
      if x = 3 then some wTopicDel else
      if x = 4 then some wTopicPinned else none,
    catTids := fun _ => [(1, 60)],
    catPosts := fun _ => [],
    catVotes := fun _ => [],
    catViews := fun _ => [],
    catPinned := fun _ => [] }

/-- A sample environment at time 100 where uid 7 is an instructor, uid 3
owns the sample topics, and nobody is an administrator or moderator. -/
def wEnv : Env :=
  { now := 100,
    catAdminOrMod := fun _ _ => false,
    accounttype := fun u => if u = 7 then "instructor" else "student",
    isModerator := fun _ _ => false,
    isAdministrator := fun _ => false,
    isOwner := fun _ uid => uid == 3,
    allowedToDelete := fun _ _ => true,
    preventTopicDeleteAfterReplies := 0 }

/-- `wEnv` with `preventTopicDeleteAfterReplies` configured to 3. -/
def wEnvDel : Env :=
  { wEnv with preventTopicDeleteAfterReplies := 3 }

/-- `wEnvDel` where uid 9 is an administrator. -/
def wEnvAdm : Env :=
  { wEnvDel with isAdministrator := fun u => u == 9 }

/-- `wEnv` where uid 9 is admin-or-mod of every category. -/
def wEnvMod : Env :=
  { wEnv with catAdminOrMod := fun _ u => u == 9 }

/-- A post authored by student uid 8 (not an instructor in `wEnv`). -/
def wPost8 : PostData :=
  { pid := 10, uid := 8, timestamp := 70, upvotes := 0, downvotes := 0 }

/-- A post authored by uid 3 (the root post in the sample run). -/
def wPostA : PostData :=
  { pid := 9, uid := 3, timestamp := 50, upvotes := 0, downvotes := 0 }

/-- Another post by uid 8. -/
def wPostB : PostData :=
  { pid := 11, uid := 8, timestamp := 80, upvotes := 1, downvotes := 0 }

/-- A well-formed sample call sequence: root post by uid 3, reply by uid 8,
that reply removed, and a fresh reply by uid 8. -/
def wOps : List AggOp := [.add wPostA, .add wPost8, .remove wPost8, .add wPostB]

/-- `wSt` with three pinned topics (4, 5, 6) in category 2, scored by pin
time. -/
def wStP : St :=
  { wSt with catPinned := fun c => if c = 2 then [(4, 10), (5, 20), (6, 30)] else [] }

/-! ## C1: instructor pin extension -/

/-- C1: for an existing, non-scheduled topic and a caller who is neither an
administrator nor a moderator of the topic's category, `pin(tid, uid)` and
`unpin(tid, uid)` both succeed when the caller holds the instructor role,
and both throw `no-privileges` when the caller does not. -/
theorem instructor_pin_extension (env : Env) (st : St) (tid uid : Nat) (t : Topic)
    (ht : st.topics tid = some t) (hsched : ¬ env.now < t.timestamp)
    (hmod : env.catAdminOrMod t.cid uid = false) :
    (isInstructor env uid = true →
      isOkB (pin env st tid uid).2 = true ∧ isOkB (unpin env st tid uid).2 = true) ∧
    (isInstructor env uid = false →
      (pin env st tid uid).2 = .error .noPrivileges ∧
      (unpin env st tid uid).2 = .error .noPrivileges) := by
  have hpam : privsIsAdminOrMod env st tid uid = false := by
    simp [privsIsAdminOrMod, ht, hmod]
  constructor
  · intro hin
    simp [pin, unpin, togglePin, ht, hsched, hpam, hin, isOkB]
  · intro hin
    simp [pin, unpin, togglePin, ht, hsched, hpam, hin]

/-- Witness for C1: in the sample data, instructor uid 7 can pin and unpin
topic 1 while plain student uid 8 receives `no-privileges` for both. -/
theorem instructor_pin_extension_witness :
    (isOkB (pin wEnv wSt 1 7).2 = true ∧ isOkB (unpin wEnv wSt 1 7).2 = true) ∧
    ((pin wEnv wSt 1 8).2 = .error .noPrivileges ∧
     (unpin wEnv wSt 1 8).2 = .error .noPrivileges) :=
  ⟨(instructor_pin_extension wEnv wSt 1 7 wTopic rfl (by decide) rfl).1 (by decide),
   (instructor_pin_extension wEnv wSt 1 8 wTopic rfl (by decide) rfl).2 (by decide)⟩

/-! ## C3: scheduled topics are pin-immune -/

/-- C3: on an existing topic whose timestamp lies in the future, `pin`
throws `cant-pin-scheduled` for every caller uid whatever their role (the
scheduled check precedes the privilege check), and the store is returned
unchanged: no topic field or index is mutated. -/
theorem scheduled_pin_immune (env : Env) (st : St) (tid uid : Nat) (t : Topic)
    (ht : st.topics tid = some t) (hsched : env.now < t.timestamp) :
    pin env st tid uid = (st, .error .cantPinScheduled) := by
  simp [pin, togglePin, ht, hsched]

/-- Witness for C3: pinning the scheduled sample topic 2 fails with
`cant-pin-scheduled` and leaves the store untouched. -/
theorem scheduled_pin_immune_witness :
    wEnv.now < wTopicSched.timestamp ∧
    pin wEnv wSt 2 9 = (wSt, .error .cantPinScheduled) :=
  ⟨by decide, scheduled_pin_immune wEnv wSt 2 9 wTopicSched rfl (by decide)⟩

/-! ## C4: delete reply-threshold guard -/

/-- C4: with `preventTopicDeleteAfterReplies = N > 0`, `canDelete(tid, uid)`
throws the parameterized threshold error (`cant-delete-topic-has-replies`
carrying `N` when `N > 1`, `cant-delete-topic-has-reply` when `N = 1`) —
rather than returning `false` — whenever the caller is neither a moderator
of the topic's category nor an administrator and the topic satisfies
`postcount - 1 >= N`; a moderator or administrator never receives the
threshold error. -/
theorem delete_reply_threshold (env : Env) (st : St) (tid uid : Nat) (t : Topic)
    (ht : st.topics tid = some t) (hN : 0 < env.preventTopicDeleteAfterReplies) :
    (env.isModerator uid t.cid = false → env.isAdministrator uid = false →
      (t.postcount : Int) - 1 ≥ (env.preventTopicDeleteAfterReplies : Int) →
      canDelete env st tid uid = .error
        (if 1 < env.preventTopicDeleteAfterReplies then
          .cantDeleteTopicHasReplies env.preventTopicDeleteAfterReplies
        else .cantDeleteTopicHasReply)) ∧
    ((env.isModerator uid t.cid = true ∨ env.isAdministrator uid = true) →
      ∃ b, canDelete env st tid uid = .ok b) := by
  constructor
  · intro hmod hadm hge
    have hne : env.preventTopicDeleteAfterReplies ≠ 0 := Nat.pos_iff_ne_zero.mp hN
    simp [canDelete, delFields, ht, hmod, hadm, hne, hge]
  · intro h
    cases hA : env.isAdministrator uid with
    | false =>
      rcases h with hmod | hadm
      · refine ⟨env.allowedToDelete uid t.cid, ?_⟩
        simp [canDelete, delFields, ht, hmod, hA]
      · rw [hadm] at hA; cases hA
    | true => exact ⟨true, by simp [canDelete, delFields, ht, hA]⟩

/-- Witness for C4: with the threshold configured to 3, non-moderator
student uid 8 gets the parameterized threshold error on topic 1 (postcount
4), while administrator uid 9 is not blocked by the threshold. -/
theorem delete_reply_threshold_witness :
    canDelete wEnvDel wSt 1 8 = .error (.cantDeleteTopicHasReplies 3) ∧
    ∃ b, canDelete wEnvAdm wSt 1 9 = .ok b :=
  ⟨(delete_reply_threshold wEnvDel wSt 1 8 wTopic rfl (by decide)).1 rfl rfl (by decide),
   (delete_reply_threshold wEnvAdm wSt 1 9 wTopic rfl (by decide)).2 (Or.inr rfl)⟩

/-! ## C5: delete/restore non-idempotence -/

/-- C5: on an existing, non-scheduled topic whose caller passes the
privilege check, `delete` throws `topic-already-deleted` when the topic is
already deleted and `restore` throws `topic-already-restored` when it is
not deleted; on either error the store — in particular the topic's
`deleted` flag — is returned unchanged, so repeating a transition is a
reported error and never a silent no-op. -/
theorem delete_restore_nonidempotent (env : Env) (st : St) (tid uid : Nat) (t : Topic)
    (ht : st.topics tid = some t) (hsched : ¬ env.now < t.timestamp)
    (hcd : canDelete env st tid uid = .ok true) :
    (t.deleted = true → deleteTopic env st tid uid = (st, .error .topicAlreadyDeleted)) ∧
    (t.deleted = false → restoreTopic env st tid uid = (st, .error .topicAlreadyRestored)) := by
  constructor
  · intro hdel
    simp [deleteTopic, toggleDelete, ht, hsched, hcd, hdel]
  · intro hdel
    simp [restoreTopic, toggleDelete, ht, hsched, hcd, hdel]

/-- Witness for C5: owner uid 3 (who may delete) gets
`topic-already-deleted` re-deleting the deleted topic 3 and
`topic-already-restored` restoring the live topic 1, both without state
change. -/
theorem delete_restore_nonidempotent_witness :
    deleteTopic wEnv wSt 3 3 = (wSt, .error .topicAlreadyDeleted) ∧
    restoreTopic wEnv wSt 1 3 = (wSt, .error .topicAlreadyRestored) :=
  ⟨(delete_restore_nonidempotent wEnv wSt 3 3 wTopicDel rfl (by decide) rfl).1 rfl,
   (delete_restore_nonidempotent wEnv wSt 1 3 wTopic rfl (by decide) rfl).2 rfl⟩

/-! ## C2: pin-expiry sweep -/

/-- C2 fails on the code: sweeping a pinned topic whose `pinExpiry` has
passed does not unpin it.  `checkPinExpiry` calls
`togglePin(tid, 'system', false)`, but `togglePin` first asserts
`typeof uid === 'number'` and the string `'system'` fails that assertion,
so the sweep rejects with a `TypeError` before any write: topic 4 (expiry
99, `now` 100) stays pinned with its `pinExpiry` intact and no list of
still-valid tids is returned.  This contradicts `togglePin`'s own JSDoc
(`@param {number|string} uid - The user ID or 'system'`) and the spec's
sweep property. -/
theorem checkPinExpiry_system_typeError :
    (checkPinExpiry wEnv wSt [4]).2 = .error .typeError ∧
    ((checkPinExpiry wEnv wSt [4]).1.topics 4).map Topic.pinned = some true ∧
    ((checkPinExpiry wEnv wSt [4]).1.topics 4).map Topic.pinExpiry = some (some 99) :=
  ⟨rfl, rfl, rfl⟩

/-! ## C8: unpin clears pinExpiry and reinserts into the feed indices -/

/-- C8 (amended): every successful unpin (`togglePin` with `pin = false`)
clears the topic's `pinExpiry` field and `pinned` flag, removes the topic
from the category's pinned index, and reinserts it into the category's
standard, posts, votes and views indices scored by the topic's current
stored `lastposttime`, `postcount`, `votes` (= upvotes - downvotes) and
`viewcount`; consequently, immediately after any unpin the topic has no
`pinExpiry`.  (The unamended invariant "pinExpiry present implies pinned"
does not hold: see the counterexample via `setPinExpiry`.) -/
theorem unpin_clears_expiry_and_reinserts (env : Env) (st : St) (tid uid : Nat) (t : Topic)
    (ht : st.topics tid = some t) (hsched : ¬ env.now < t.timestamp)
    (hpriv : privsIsAdminOrMod env st tid uid = true ∨ isInstructor env uid = true) :
    isOkB (unpin env st tid uid).2 = true ∧
    (unpin env st tid uid).1.topics tid =
      some { t with pinned := false, pinExpiry := none } ∧
    (unpin env st tid uid).1.catTids t.cid =
      zadd (st.catTids t.cid) (t.lastposttime : Int) tid ∧
    (unpin env st tid uid).1.catPosts t.cid =
      zadd (st.catPosts t.cid) (t.postcount : Int) tid ∧
    (unpin env st tid uid).1.catVotes t.cid =
      zadd (st.catVotes t.cid) (topicVotes t) tid ∧
    (unpin env st tid uid).1.catViews t.cid =
      zadd (st.catViews t.cid) (t.viewcount : Int) tid ∧
    (tid, (t.lastposttime : Int)) ∈ (unpin env st tid uid).1.catTids t.cid ∧
    tid ∉ ((unpin env st tid uid).1.catPinned t.cid).map (·.1) := by
  have hguard : (!privsIsAdminOrMod env st tid uid && !isInstructor env uid) = false := by
    rcases hpriv with h | h <;> simp [h]
  have hres : unpin env st tid uid =
      ({ topics := updateFn st.topics tid (some { t with pinned := false, pinExpiry := none }),
         catTids := updateFn st.catTids t.cid
           (zadd (st.catTids t.cid) (t.lastposttime : Int) tid),
         catPosts := updateFn st.catPosts t.cid
           (zadd (st.catPosts t.cid) (t.postcount : Int) tid),
         catVotes := updateFn st.catVotes t.cid
           (zadd (st.catVotes t.cid) (topicVotes t) tid),
         catViews := updateFn st.catViews t.cid
           (zadd (st.catViews t.cid) (t.viewcount : Int) tid),
         catPinned := updateFn st.catPinned t.cid
           (zremKey (st.catPinned t.cid) tid) },
       .ok ⟨tid, t.uid, t.cid, false⟩) := by
    simp [unpin, togglePin, ht, hsched, hguard]
  rw [hres]
  refine ⟨rfl, ?_, ?_, ?_, ?_, ?_, ?_, ?_⟩
  · simp [updateFn]
  · simp [updateFn]
  · simp [updateFn]
  · simp [updateFn]
  · simp [updateFn]
  · simp only [updateFn, if_pos rfl]
    exact mem_zadd_self _ _ _
  · simp only [updateFn, if_pos rfl]
    exact not_mem_keys_zremKey _ _

/-- Witness for C8's amended theorem: category moderator uid 9 unpins the
pinned sample topic 4. -/
theorem unpin_clears_expiry_and_reinserts_witness :
    isOkB (unpin wEnvMod wSt 4 9).2 = true ∧
    (unpin wEnvMod wSt 4 9).1.topics 4 =
      some { wTopicPinned with pinned := false, pinExpiry := none } ∧
    (unpin wEnvMod wSt 4 9).1.catTids wTopicPinned.cid =
      zadd (wSt.catTids wTopicPinned.cid) (wTopicPinned.lastposttime : Int) 4 ∧
    (unpin wEnvMod wSt 4 9).1.catPosts wTopicPinned.cid =
      zadd (wSt.catPosts wTopicPinned.cid) (wTopicPinned.postcount : Int) 4 ∧
    (unpin wEnvMod wSt 4 9).1.catVotes wTopicPinned.cid =
      zadd (wSt.catVotes wTopicPinned.cid) (topicVotes wTopicPinned) 4 ∧
    (unpin wEnvMod wSt 4 9).1.catViews wTopicPinned.cid =
      zadd (wSt.catViews wTopicPinned.cid) (wTopicPinned.viewcount : Int) 4 ∧
    (4, (wTopicPinned.lastposttime : Int)) ∈ (unpin wEnvMod wSt 4 9).1.catTids wTopicPinned.cid ∧
    4 ∉ ((unpin wEnvMod wSt 4 9).1.catPinned wTopicPinned.cid).map (·.1) :=
  unpin_clears_expiry_and_reinserts wEnvMod wSt 4 9 wTopicPinned rfl (by decide) (Or.inl rfl)

/-- Counterexample for C8 as stated: the claim's consequence "a topic with
pinExpiry present is always pinned" is false.  `setPinExpiry` checks only
that the expiry is in the future and that the caller is category
admin-or-mod — not that the topic is pinned — so moderator uid 9 can set a
pin expiry on the unpinned topic 1, reaching a state whose `pinExpiry` is
present while `pinned` is false. -/
theorem pinExpiry_present_not_pinned_cex :
    (setPinExpiry wEnvMod wSt 1 500 9).2 = .ok () ∧
    ((setPinExpiry wEnvMod wSt 1 500 9).1.topics 1).map Topic.pinExpiry =
      some (some 500) ∧
    ((setPinExpiry wEnvMod wSt 1 500 9).1.topics 1).map Topic.pinned = some false :=
  ⟨rfl, rfl, rfl⟩

/-! ## C6: instructorcount maintenance -/

/-- C6 fails on the code: for a non-instructor author,
`removePostFromTopic` still decrements `instructorcount`.  The add side is
correct — student uid 8's post does not increment the counter — but the
remove side tests the un-awaited Promise `user.isInstructor(postData.uid)`,
which is always truthy, so removing that same post drives
`instructorcount` from 0 to -1 instead of leaving it unchanged. -/
theorem removePost_instructorcount_bug :
    isInstructor wEnv 8 = false ∧
    (addPostToTopic wEnv aggInit wPost8).instructorcount = 0 ∧
    (removePostFromTopic wEnv (addPostToTopic wEnv aggInit wPost8) wPost8).instructorcount = -1 := by
  decide

/-! ## C7: counter consistency -/

/-- C7: along every well-formed sequence of `addPostToTopic` /
`removePostFromTopic` calls starting from a fresh topic (each removed post
currently attached, each added pid fresh), `postcount` equals the number
of adds minus the number of removes — in particular it never goes below 0
— and `postercount` equals the number of distinct posters with at least
one currently-attached post, recomputed from the poster-tally sorted set
after pruning every poster whose tally is at most 0.  Quantifying over all
well-formed sequences covers "after each call", every prefix of a
well-formed sequence being well-formed. -/
theorem counter_consistency (env : Env) (ops : List AggOp)
    (h : wfAgg [] ops = true) :
    (runAgg env aggInit ops).postcount
      = (countAdds ops : Int) - (countRemoves ops : Int) ∧
    0 ≤ (runAgg env aggInit ops).postcount ∧
    (runAgg env aggInit ops).postercount
      = (((ghostPosts [] ops).map (·.uid)).dedup).length := by
  have hinv0 : AggInv [] aggInit := by
    refine ⟨rfl, ⟨List.nodup_nil, ?_, ?_⟩, rfl⟩
    · intro e he
      simp [aggInit] at he
    · intro u hu
      simp [tallyOf] at hu
  have hinv := runAgg_inv env ops [] aggInit h hinv0
  obtain ⟨hpc, hpi, hcnt⟩ := hinv
  have hlen := ghostPosts_length ops [] h
  refine ⟨?_, ?_, ?_⟩
  · rw [hpc]
    simpa using hlen
  · rw [hpc]
    exact Int.natCast_nonneg _
  · rw [hcnt]
    exact postersInv_length _ _ hpi

/-- Witness for C7: running the four-call sample sequence (add root by uid
3, add reply by uid 8, remove it, add another reply by uid 8) keeps the
counters consistent. -/
theorem counter_consistency_witness :
    wfAgg [] wOps = true ∧
    ((runAgg wEnv aggInit wOps).postcount
        = (countAdds wOps : Int) - (countRemoves wOps : Int) ∧
     0 ≤ (runAgg wEnv aggInit wOps).postcount ∧
     (runAgg wEnv aggInit wOps).postercount
        = (((ghostPosts [] wOps).map (·.uid)).dedup).length) :=
  ⟨by decide, counter_consistency wEnv wOps (by decide)⟩

/-! ## C9: ordering pinned topics -/

/-- C9: with valid data (existing topic with a category, nonzero tid,
`order ≥ 0`), `orderPinnedTopics(uid, {tid, order})` throws
`no-privileges` unless the caller is admin-or-mod of the topic's category;
when the caller is permitted and `tid` is present in the category's pinned
list `L`, it removes `tid` from its current position, reinserts it at
index `max 0 (L.length - order - 1)` of the list, and rewrites the score
of every member of the pinned list to its positional index in the
resulting order: the stored pinned set becomes exactly the reordered list
scored 0, 1, 2, …. -/
theorem orderPinned_reorders (env : Env) (st : St) (uid tid : Nat) (order : Int)
    (t : Topic) (ht : st.topics tid = some t)
    (hc : t.cid ≠ 0) (htid : tid ≠ 0) (ho : 0 ≤ order) :
    (env.catAdminOrMod t.cid uid = false →
      orderPinnedTopics env st uid tid order = (st, .error .noPrivileges)) ∧
    (env.catAdminOrMod t.cid uid = true →
      tid ∈ zrange (st.catPinned t.cid) →
      (orderPinnedTopics env st uid tid order).2 = .ok () ∧
      (orderPinnedTopics env st uid tid order).1.catPinned t.cid
        = posScores (claimReorder (zrange (st.catPinned t.cid)) tid order) 0) := by
  have hval : ¬(t.cid = 0 ∨ tid = 0 ∨ order < 0) := by
    push_neg
    exact ⟨hc, htid, by omega⟩
  constructor
  · intro hmod
    simp [orderPinnedTopics, ht, hval, hmod]
  · intro hmod hmem
    refine ⟨by simp [orderPinnedTopics, ht, hval, hmod, hmem], ?_⟩
    have hproj : (orderPinnedTopics env st uid tid order).1.catPinned t.cid
        = zaddMulti (st.catPinned t.cid)
            (posScores (jsReorder (zrange (st.catPinned t.cid)) tid order) 0) := by
      simp [orderPinnedTopics, ht, hval, hmod, hmem, updateFn]
    rw [hproj]
    rw [jsReorder_eq_claimReorder _ _ _ hmem ho]
    rw [zaddMulti_covers]
    · exact sortPairs_of_strictAsc _ (posScores_strictAsc _ 0)
    · intro e he
      have hkeyL : e.1 ∈ zrange (st.catPinned t.cid) := List.mem_map.mpr ⟨e, he, rfl⟩
      have hkeyM : e.1 ∈ claimReorder (zrange (st.catPinned t.cid)) tid order := by
        rw [claimReorder, mem_listInsertAt]
        by_cases hE : e.1 = tid
        · exact Or.inl hE
        · exact Or.inr ((List.mem_erase_of_ne hE).mpr hkeyL)
      have hpk := posScores_keys (claimReorder (zrange (st.catPinned t.cid)) tid order) 0
      rw [← hpk] at hkeyM
      obtain ⟨q, hq, hq1⟩ := List.mem_map.mp hkeyM
      exact ⟨q, hq, hq1⟩

/-- Witness for C9: moderator uid 9 moves pinned topic 4 to rank 0 in
category 2's pinned list `[4, 5, 6]`; the stored set becomes the reordered
list `[5, 6, 4]` with positional scores. -/
theorem orderPinned_reorders_witness :
    (orderPinnedTopics wEnvMod wStP 9 4 0).2 = .ok () ∧
    (orderPinnedTopics wEnvMod wStP 9 4 0).1.catPinned 2
      = posScores (claimReorder (zrange (wStP.catPinned 2)) 4 0) 0 :=
  (orderPinned_reorders wEnvMod wStP 9 4 0 wTopicPinned rfl (by decide) (by decide)
    (by decide)).2 rfl (by decide)

/-! ## C10: silent no-op for a tid missing from the pinned index -/

/-- C10: when the caller passes the admin-or-mod guard but the target tid
is not a member of the category's pinned index, `orderPinnedTopics`
returns without throwing and without modifying anything — a silent no-op;
and `invalid-data` arises exactly from the prior validation: a missing
topic (hence falsy cid), cid 0, tid 0, or `order < 0`. -/
theorem orderPinned_missing_silent (env : Env) (st : St) (uid tid : Nat) (order : Int) :
    (∀ t : Topic, st.topics tid = some t → t.cid ≠ 0 → tid ≠ 0 → 0 ≤ order →
      env.catAdminOrMod t.cid uid = true →
      tid ∉ zrange (st.catPinned t.cid) →
      orderPinnedTopics env st uid tid order = (st, .ok ())) ∧
    ((orderPinnedTopics env st uid tid order).2 = .error .invalidData ↔
      st.topics tid = none ∨
      ∃ t : Topic, st.topics tid = some t ∧ (t.cid = 0 ∨ tid = 0 ∨ order < 0)) := by
  constructor
  · intro t ht hc htid ho hmod hnot
    have hval : ¬(t.cid = 0 ∨ tid = 0 ∨ order < 0) := by
      push_neg
      exact ⟨hc, htid, by omega⟩
    simp [orderPinnedTopics, ht, hval, hmod, hnot]
  · cases hts : st.topics tid with
    | none => simp [orderPinnedTopics, hts]
    | some t =>
      by_cases hval : t.cid = 0 ∨ tid = 0 ∨ order < 0
      · simp [orderPinnedTopics, hts, hval]
      · simp only [orderPinnedTopics, hts]
        rw [if_neg hval]
        constructor
        · intro hcon
          by_cases hmod : env.catAdminOrMod t.cid uid
          · rw [if_neg (by simp [hmod])] at hcon
            by_cases hmem : tid ∈ zrange (st.catPinned t.cid)
            · rw [if_pos hmem] at hcon
              simp at hcon
            · rw [if_neg hmem] at hcon
              simp at hcon
          · rw [if_pos (by simp [hmod])] at hcon
            simp at hcon
        · intro hcon
          rcases hcon with h1 | ⟨t2, ht2, h2⟩
          · simp at h1
          · injection ht2 with ht2e
            subst ht2e
            exact absurd h2 hval

/-- Witness for C10: moderator uid 9 calls `orderPinnedTopics` on topic 1,
which is not in category 2's pinned list `[4, 5, 6]`; the call returns
successfully and the store is untouched. -/
theorem orderPinned_missing_silent_witness :
    orderPinnedTopics wEnvMod wStP 9 1 0 = (wStP, .ok ()) :=
  (orderPinned_missing_silent wEnvMod wStP 9 1 0).1 wTopic rfl (by decide) (by decide)
    (by decide) rfl (by decide)

end NodeBB
